import Mathlib

/-!
Shallow embedding of the options-chain proxy (`api_utils.py`, `cache_manager.py`,
`app.py`) and proofs about its date logic, retry policy, strike filtering and
response cache.

Modelling conventions:
* Calendar dates are `Date` records (year, month, day).  Upstream expiration
  strings are canonical zero-padded `YYYY-MM-DD`, so `strptime`/`strftime`
  round-trip is the identity and string comparison/membership coincides with
  date comparison/membership; lists of date strings are modelled as lists of
  `Date`.
* A raised Python exception is `Except.error`; a normal return is `Except.ok`.
* The ambient clock (`datetime.now()`) is passed explicitly (`today`, `now`).
* `time.sleep` is a pure delay with no observable effect and is not modelled.
-/

set_option maxRecDepth 4000

deriving instance DecidableEq for Except

namespace OptionsProxy

/-- A calendar date (year, month, day), modelling a Python `datetime.date` and
the canonical `YYYY-MM-DD` strings exchanged with upstream. -/
structure Date where
  year : Nat
  month : Nat
  day : Nat
deriving DecidableEq

/-- Numeric key realising the lexicographic (year, month, day) order, which is
the order of Python `date` comparison and of canonical `YYYY-MM-DD` string
comparison. -/
def Date.key (d : Date) : Nat := d.year * 10000 + d.month * 100 + d.day

/-- Gregorian leap-year rule used by Python's `calendar` module. -/
def isLeapYear (y : Nat) : Bool := y % 4 == 0 && (y % 100 != 0 || y % 400 == 0)

/-- Number of days in a month of the Gregorian calendar. -/
def daysInMonth (y m : Nat) : Nat :=
  if m == 2 then (if isLeapYear y then 29 else 28)
  else if m == 4 || m == 6 || m == 9 || m == 11 then 30
  else 31

/-- Month term of Sakamoto's day-of-week formula (index by month 1..12). -/
def monthTerm (m : Nat) : Nat :=
  match m with
  | 1 => 0 | 2 => 3 | 3 => 2 | 4 => 5 | 5 => 0 | 6 => 3
  | 7 => 5 | 8 => 1 | 9 => 4 | 10 => 6 | 11 => 2 | _ => 4

/-- Year-and-month part of Sakamoto's day-of-week formula. -/
def dowBase (y m : Nat) : Nat :=
  let y2 := if m < 3 then y - 1 else y
  y2 + y2 / 4 - y2 / 100 + y2 / 400 + monthTerm m

/-- Day of week of a Gregorian date: 0 = Sunday, ..., 5 = Friday, 6 = Saturday.
This is the arithmetic underlying Python's `calendar.monthcalendar`. -/
def dow (y m d : Nat) : Nat := (dowBase y m + d) % 7

/-- The day numbers of all Fridays of the given month, in calendar order.
Python's
`[week[calendar.FRIDAY] for week in calendar.monthcalendar(y, m) if week[calendar.FRIDAY] != 0]`
produces exactly the Friday day numbers of the month, ascending. -/
def fridaysList (y m : Nat) : List Nat :=
  ((List.range (daysInMonth y m)).map (fun k => k + 1)).filter (fun d => dow y m d == 5)

/-- Python `is_third_friday(date)`: compares `date.day` with `fridays[2]`.
The subscript raises `IndexError` when fewer than three Fridays exist, which is
modelled by `none`. -/
def is_third_friday (dt : Date) : Option Bool :=
  match (fridaysList dt.year dt.month)[2]? with
  | none => none
  | some tf => some (dt.day == tf)

example : is_third_friday ⟨2024, 3, 15⟩ = some true := by decide
example : is_third_friday ⟨2024, 3, 8⟩ = some false := by decide
example : fridaysList 2024 4 = [5, 12, 19, 26] := by decide

/-- Successor of a calendar date. -/
def nextDay (d : Date) : Date :=
  if d.day < daysInMonth d.year d.month then ⟨d.year, d.month, d.day + 1⟩
  else if d.month < 12 then ⟨d.year, d.month + 1, 1⟩
  else ⟨d.year + 1, 1, 1⟩

/-- Python `today + timedelta(days=n)`. -/
def addDays (d : Date) (n : Nat) : Date := Nat.iterate nextDay n d

example : addDays ⟨2024, 2, 1⟩ 30 = ⟨2024, 3, 2⟩ := by decide

/-- The date order used by Python `sorted` on canonical `YYYY-MM-DD` strings
and by `date` comparison. -/
def dateLe (a b : Date) : Prop := a.key ≤ b.key

instance : DecidableRel dateLe := fun a b => inferInstanceAs (Decidable (a.key ≤ b.key))

instance : IsTotal Date dateLe := ⟨fun a b => Nat.le_total a.key b.key⟩

instance : IsTrans Date dateLe := ⟨fun _ _ _ h1 h2 => Nat.le_trans h1 h2⟩

/-- Loop body of `filter_valid_expirations`.  Python's
`if exp_date >= min_date and is_third_friday(exp_date)` short-circuits, calling
`is_third_friday` only when `exp_date >= min_date`; an `IndexError` escaping
`is_third_friday` aborts the whole function (`none`). -/
def filterValidAux (minD : Date) : List Date → Option (List Date)
  | [] => some []
  | e :: rest =>
    if minD.key ≤ e.key then
      match is_third_friday e with
      | none => none
      | some tf =>
        match filterValidAux minD rest with
        | none => none
        | some tail => some (if tf then e :: tail else tail)
    else filterValidAux minD rest

/-- Python `filter_valid_expirations(expirations)` with the ambient clock made
explicit: keep the dates at least 30 days after `today` that are third Fridays,
then return them sorted ascending (`sorted(valid_dates)`). -/
def filter_valid_expirations (today : Date) (exps : List Date) : Option (List Date) :=
  match filterValidAux (addDays today 30) exps with
  | none => none
  | some valid => some (List.insertionSort dateLe valid)

example :
    filter_valid_expirations ⟨2024, 2, 1⟩ [⟨2024, 3, 8⟩, ⟨2024, 3, 15⟩, ⟨2024, 4, 19⟩] =
      some [⟨2024, 3, 15⟩, ⟨2024, 4, 19⟩] := by decide

/-- Errors raised by `validate_symbol` (`ValueError` with the respective
message in the source). -/
inductive SymbolErr where
  | invalidFormat
  | unverifiable (symbol : String)
deriving DecidableEq

/-- Uppercase ASCII letter test, Python character class `[A-Z]`. -/
def isUpperAZ (c : Char) : Bool := 'A' ≤ c && c ≤ 'Z'

/-- Between one and five uppercase ASCII letters, the body `[A-Z]{1,5}` of the
symbol pattern. -/
def upper1to5 (cs : List Char) : Bool :=
  decide (1 ≤ cs.length) && decide (cs.length ≤ 5) && cs.all isUpperAZ

/-- Python `re.match(r'^[A-Z]{1,5}$', s)` viewed as a Boolean: in Python's
`re`, `$` matches at the end of the string or just before a single newline at
the end of the string, so the pattern matches iff `s` is 1 to 5 uppercase
ASCII letters optionally followed by one final newline character.  Python's
preceding `not symbol` test only rejects the empty string, which the pattern
rejects anyway. -/
def reMatchSymbol (s : String) : Bool :=
  upper1to5 s.data || (s.data.getLast? == some '\n' && upper1to5 s.data.dropLast)

/-- The format predicate as the specification words it: exactly 1 to 5
uppercase ASCII letters, nothing else. -/
def claimedSymbolFormat (s : String) : Bool := upper1to5 s.data

example : reMatchSymbol "AAPL" = true := by decide
example : reMatchSymbol "ABC\n" = true := by decide
example : reMatchSymbol "abc" = false := by decide
example : reMatchSymbol "" = false := by decide
example : reMatchSymbol "ABCDEF" = false := by decide

/-- Python `symbol.upper()`: per-character uppercasing (same as Lean's
`String.toUpper`, written over the character list so that it evaluates by
`decide`). -/
def pyUpper (s : String) : String := String.mk (s.data.map Char.toUpper)

/-- Existence-check retry loop of `validate_symbol`: `r` attempts remain,
`a` is the current attempt index, `info a` models the whole `try` body
(`yf.Ticker(symbol)` plus the truthiness of `ticker.info`).  Running out of
the loop falls through to `return symbol.upper()`. -/
def validateSymbolLoop (info : Nat → Except String Bool) (symbol : String) :
    Nat → Nat → Except SymbolErr String
  | 0, _ => .ok (pyUpper symbol)
  | r + 1, a =>
    match info a with
    | .ok true => .ok (pyUpper symbol)
    | .ok false => validateSymbolLoop info symbol r (a + 1)
    | .error _ =>
      if r = 0 then .error (.unverifiable symbol)
      else validateSymbolLoop info symbol r (a + 1)

/-- Python `validate_symbol(symbol)`: format check, then the existence check
against upstream with `max_retries = 3`. -/
def validate_symbol (info : Nat → Except String Bool) (symbol : String) :
    Except SymbolErr String :=
  if reMatchSymbol symbol then validateSymbolLoop info symbol 3 0
  else .error .invalidFormat

example : validate_symbol (fun _ => .ok true) "AAPL" = .ok "AAPL" := by decide
example : validate_symbol (fun _ => .ok false) "AAPL" = .ok "AAPL" := by decide
example : validate_symbol (fun _ => .error "boom") "AAPL" = .error (.unverifiable "AAPL") := by decide
example : validate_symbol (fun _ => .ok true) "aapl" = .error .invalidFormat := by decide

/-- Errors raised by `get_options_chain` (each a `ValueError` in the source;
`noFutureDate` carries the requested date and the message's list of available
dates). -/
inductive FetchErr where
  | noOptions (symbol : String)
  | noValidMonthly (symbol : String)
  | noFutureDate (requested : Date) (available : List Date)
  | chainFetchFailed (symbol : String) (expDate : Date)
  | badDate
deriving DecidableEq

/-- Expiration-list retry loop of `get_options_chain` (`max_retries = 3`):
`r` attempts remain, `a` is the attempt index, `cur` is the current value of
the `expirations` variable (initially Python `None`).  Returns the list of
attempt indices actually made together with `none` for the early `return None`
taken when the final attempt raises, or `some cur` for a normal loop exit
(`break` on a non-empty result, or exhaustion). -/
def expRetry (fetch : Nat → Except String (List Date)) :
    Nat → Nat → Option (List Date) → List Nat × Option (Option (List Date))
  | 0, _, cur => ([], some cur)
  | r + 1, a, cur =>
    match fetch a with
    | .ok exps =>
      if exps.isEmpty then
        let next := expRetry fetch r (a + 1) (some exps)
        (a :: next.1, next.2)
      else ([a], some (some exps))
    | .error _ =>
      if r = 0 then ([a], none)
      else
        let next := expRetry fetch r (a + 1) cur
        (a :: next.1, next.2)

/-- Option-chain retry loop of `get_options_chain`: same shape as `expRetry`,
but the loop breaks on `opts is not None` rather than on truthiness, and the
`opts` variable starts as Python `None`. -/
def chainRetry {χ : Type} (fetch : Nat → Except String (Option χ)) :
    Nat → Nat → Option χ → List Nat × Option (Option χ)
  | 0, _, cur => ([], some cur)
  | r + 1, a, cur =>
    match fetch a with
    | .ok (some o) => ([a], some (some o))
    | .ok none =>
      let next := chainRetry fetch r (a + 1) none
      (a :: next.1, next.2)
    | .error _ =>
      if r = 0 then ([a], none)
      else
        let next := chainRetry fetch r (a + 1) cur
        (a :: next.1, next.2)

/-- Python `min` over a non-empty list of dates (first minimum kept). -/
def listMin (x : Date) (xs : List Date) : Date :=
  xs.foldl (fun a b => if b.key < a.key then b else a) x

/-- Expiration-date selection step of `get_options_chain` (source lines
110-126): verbatim use when the requested date is among `valid`, otherwise the
minimum valid date at least the requested one, raising when there is none; with
no requested date, `valid_expirations[0]` (whose `IndexError` on an empty list,
`badDate`, is unreachable behind the caller's non-emptiness check). -/
def resolveExpiration (valid : List Date) (expiration : Option Date) :
    Except FetchErr Date :=
  match expiration with
  | some exp =>
    if exp ∈ valid then .ok exp
    else
      match valid.filter (fun d => decide (exp.key ≤ d.key)) with
      | [] => .error (.noFutureDate exp valid)
      | f :: fs => .ok (listMin f fs)
  | none =>
    match valid with
    | [] => .error .badDate
    | v :: _ => .ok v

example :
    resolveExpiration [⟨2024, 3, 15⟩, ⟨2024, 4, 19⟩, ⟨2024, 5, 17⟩] (some ⟨2024, 4, 1⟩) =
      .ok ⟨2024, 4, 19⟩ := by decide

/-- Strike filtering of `get_options_chain` (source lines 151-157), applied to
one record sequence.  Records are opaque except for their `strike` field,
read by the `strike` accessor.  Strike values and bounds are modelled as
rationals: the code only compares them (`float(...)` casts, no arithmetic),
and IEEE comparison of finite values agrees with the rational order. -/
def filterStrikes {Rec : Type} (strike : Rec → Rat) (minS maxS : Option Rat)
    (recs : List Rec) : List Rec :=
  let r1 := match minS with
    | some m => recs.filter (fun c => decide (m ≤ strike c))
    | none => recs
  match maxS with
  | some mx => r1.filter (fun c => decide (strike c ≤ mx))
  | none => r1

example : filterStrikes id (some 95) (some 105) [(90 : Rat), 100, 110] = [100] := by decide

/-- The two record collections of a fetched option chain
(`opts.calls`, `opts.puts`). -/
structure OptChain (Rec : Type) where
  calls : List Rec
  puts : List Rec
deriving DecidableEq

/-- The successful result of `get_options_chain`. -/
structure ChainResult (Rec : Type) where
  symbol : String
  expiration : Date
  calls : List Rec
  puts : List Rec
deriving DecidableEq

/-- The upstream provider (`yfinance`), one `Except` per attempt so that flaky
behaviour is expressible: `info` is the truthiness of `ticker.info`,
`options` is `ticker.options`, `option_chain d` is `ticker.option_chain(d)`
(which the code also guards against being `None`). -/
structure Upstream (Rec : Type) where
  info : Nat → Except String Bool
  options : Nat → Except String (List Date)
  option_chain : Date → Nat → Except String (Option (OptChain Rec))

/-- Python `get_options_chain(symbol, expiration, min_strike, max_strike)`.
The outer `try/except` of the source logs and re-raises, leaving behaviour
unchanged.  `.ok none` is the `return None` taken when a retry loop's final
attempt raises; `.error` is a raised `ValueError`. -/
def get_options_chain {Rec : Type} (up : Upstream Rec) (strike : Rec → Rat)
    (symbol : String) (expiration : Option Date) (minS maxS : Option Rat)
    (today : Date) : Except FetchErr (Option (ChainResult Rec)) :=
  match (expRetry up.options 3 0 none).2 with
  | none => .ok none
  | some cur =>
    let expirations := cur.getD []
    if expirations.isEmpty then .error (.noOptions symbol)
    else
      match filter_valid_expirations today expirations with
      | none => .error .badDate
      | some valid =>
        if valid.isEmpty then .error (.noValidMonthly symbol)
        else
          match resolveExpiration valid expiration with
          | .error e => .error e
          | .ok expDate =>
            match (chainRetry (up.option_chain expDate) 3 0 none).2 with
            | none => .ok none
            | some optsCur =>
              match optsCur with
              | none => .error (.chainFetchFailed symbol expDate)
              | some opts =>
                .ok (some
                  { symbol := symbol
                    expiration := expDate
                    calls := filterStrikes strike minS maxS opts.calls
                    puts := filterStrikes strike minS maxS opts.puts })

/-- Python `CacheManager.cache_key`: the joined key string
`func.__name__ | args... | k:v...` with keyword arguments sorted by name
(dict keys are unique, so sorting Python's `(k, v)` tuples is sorting by `k`).
The source then hashes this string with md5; the hash adds nothing observable
to the claims, so the pre-image string itself is the key. -/
def cache_key (fname : String) (args : List String) (kwargs : List (String × String)) :
    String :=
  String.intercalate "|"
    (fname :: args ++
      (List.insertionSort (fun a b : String × String => a.1 < b.1) kwargs).map
        (fun kv => kv.1 ++ ":" ++ kv.2))

/-- One call through the `CacheManager.cached(timeout_seconds)` wrapper.
`store` is the `_cache` dictionary, `now` the value of `datetime.now()` in
seconds, `compute` the wrapped function (which may raise).  Returns the
call's outcome, the updated store, and whether `compute` was invoked. -/
def cachedCall {V E : Type} (ttl : Int) (store : String → Option (V × Int))
    (now : Int) (key : String) (compute : Unit → Except E V) :
    Except E V × (String → Option (V × Int)) × Bool :=
  match store key with
  | some (data, ts) =>
    if now - ts < ttl then (.ok data, store, false)
    else
      match compute () with
      | .ok v => (.ok v, fun k => if k = key then some (v, now) else store k, true)
      | .error e => (.error e, store, true)
  | none =>
    match compute () with
    | .ok v => (.ok v, fun k => if k = key then some (v, now) else store k, true)
    | .error e => (.error e, store, true)

/-- A value returned by the `get_options` view: `jsonify(data)` on success or
the `({'error': ...}, 404)` pair when `get_options_chain` returned nothing. -/
inductive Resp (Rec : Type) where
  | payload (r : ChainResult Rec)
  | notFound (message : String)
deriving DecidableEq

/-- An exception escaping the `get_options` view body (re-raised by its inner
`except` clause and later mapped to a status code by `handle_errors`, which
sits outside the cache wrapper). -/
inductive AppErr where
  | symbolErr (e : SymbolErr)
  | fetchErr (e : FetchErr)
deriving DecidableEq

/-- Body of the Flask view `get_options(symbol)` (app.py lines 68-88): validate
the symbol, fetch the chain, and turn an empty fetch result into a 404
response value.  Query-string parsing and `validate_date` of an explicitly
requested expiration are upstream of this body's fetch call; the already
validated values are taken as parameters. -/
def get_options_fn {Rec : Type} (up : Upstream Rec) (strike : Rec → Rat)
    (today : Date) (symbol : String) (expiration : Option Date)
    (minS maxS : Option Rat) : Except AppErr (Resp Rec) :=
  match validate_symbol up.info symbol with
  | .error e => .error (.symbolErr e)
  | .ok sym =>
    match get_options_chain up strike sym expiration minS maxS today with
    | .error e => .error (.fetchErr e)
    | .ok none => .ok (.notFound ("No options data available for " ++ sym))
    | .ok (some data) => .ok (.payload data)

/-- An upstream whose every network call raises. -/
def upAllFail : Upstream Unit :=
  { info := fun _ => .ok true
    options := fun _ => .error "ConnectionError"
    option_chain := fun _ _ => .error "ConnectionError" }

example :
    get_options_chain upAllFail (fun _ => 0) "AAPL" none none none ⟨2024, 2, 1⟩ =
      .ok none := by decide

example :
    get_options_fn upAllFail (fun _ => 0) ⟨2024, 2, 1⟩ "AAPL" none none none =
      .ok (.notFound "No options data available for AAPL") := by decide

/-! ## Totality of the third-Friday computation -/

lemma daysInMonth_ge28 (y m : Nat) : 28 ≤ daysInMonth y m := by
  unfold daysInMonth
  split_ifs <;> omega

lemma three_le_filter_mod (b : Nat) {n : Nat} (hn : 28 ≤ n) :
    3 ≤ (((List.range n).map (fun k => k + 1)).filter (fun d => (b + d) % 7 == 5)).length := by
  obtain ⟨k, rfl⟩ : ∃ k, n = 28 + k := ⟨n - 28, by omega⟩
  rw [List.range_add, List.map_append, List.filter_append, List.length_append]
  have key : ∀ r : Nat, r < 7 →
      3 ≤ (((List.range 28).map (fun k => k + 1)).filter
        (fun d => (r + d) % 7 == 5)).length := by decide
  have hcongr : ((List.range 28).map (fun k => k + 1)).filter (fun d => (b + d) % 7 == 5)
      = ((List.range 28).map (fun k => k + 1)).filter (fun d => (b % 7 + d) % 7 == 5) := by
    apply List.filter_congr
    intro x _
    rw [Nat.mod_add_mod]
  calc 3 ≤ (((List.range 28).map (fun k => k + 1)).filter
            (fun d => (b % 7 + d) % 7 == 5)).length :=
        key (b % 7) (Nat.mod_lt _ (by norm_num))
    _ = (((List.range 28).map (fun k => k + 1)).filter
            (fun d => (b + d) % 7 == 5)).length := by rw [← hcongr]
    _ ≤ _ := Nat.le_add_right _ _

lemma fridaysList_length (y m : Nat) : 3 ≤ (fridaysList y m).length :=
  three_le_filter_mod (dowBase y m) (daysInMonth_ge28 y m)

lemma isThirdFriday_isSome (dt : Date) : ∃ b : Bool, is_third_friday dt = some b := by
  unfold is_third_friday
  rw [List.getElem?_eq_getElem
    (Nat.lt_of_lt_of_le (by norm_num) (fridaysList_length dt.year dt.month))]
  exact ⟨_, rfl⟩

/-- C10: for every year and month, the month's Friday list has at least three
elements, so `is_third_friday`'s subscript `fridays[2]` is always in range and
the function always returns a Boolean, never raising. -/
theorem isThirdFriday_total :
    (∀ y m : Nat, 3 ≤ (fridaysList y m).length) ∧
    ∀ dt : Date, ∃ b : Bool, is_third_friday dt = some b :=
  ⟨fridaysList_length, isThirdFriday_isSome⟩

/-! ## The third-Friday predicate characterised by counting -/

lemma getElem?_pairwise_lt (l : List Nat) (hl : l.Pairwise (fun a b => a < b)) :
    ∀ (i x : Nat), l[i]? = some x ↔ x ∈ l ∧ l.countP (fun y => decide (y < x)) = i := by
  induction l with
  | nil => intro i x; simp
  | cons a t ih =>
    rw [List.pairwise_cons] at hl
    obtain ⟨ha, ht⟩ := hl
    intro i x
    cases i with
    | zero =>
      simp only [List.getElem?_cons_zero, Option.some.injEq, List.mem_cons, List.countP_cons]
      constructor
      · rintro rfl
        have h0 : t.countP (fun y => decide (y < a)) = 0 := by
          rw [List.countP_eq_zero]
          intro y hy
          simpa using Nat.not_lt.mpr (Nat.le_of_lt (ha y hy))
        simp [h0]
      · rintro ⟨hx | hx, hc⟩
        · exact hx.symm
        · exfalso
          have hax : decide (a < x) = true := by simpa using ha x hx
          simp [hax] at hc
    | succ i =>
      simp only [List.getElem?_cons_succ, List.mem_cons, List.countP_cons]
      rw [ih ht i x]
      constructor
      · rintro ⟨hx, hc⟩
        have hax : decide (a < x) = true := by simpa using ha x hx
        simp only [hax, if_pos]
        exact ⟨Or.inr hx, by omega⟩
      · rintro ⟨hx | hx, hc⟩
        · exfalso
          subst hx
          have h0 : t.countP (fun y => decide (y < x)) = 0 := by
            rw [List.countP_eq_zero]
            intro y hy
            simpa using Nat.not_lt.mpr (Nat.le_of_lt (ha y hy))
          simp [h0] at hc
        · have hax : decide (a < x) = true := by simpa using ha x hx
          simp only [hax, if_pos] at hc
          exact ⟨hx, by omega⟩

lemma fridaysList_pairwise (y m : Nat) : (fridaysList y m).Pairwise (fun a b => a < b) := by
  unfold fridaysList
  apply List.Pairwise.filter
  rw [List.pairwise_map]
  exact (List.pairwise_lt_range _).imp (fun h => Nat.succ_lt_succ h)

lemma mem_fridaysList (y m x : Nat) :
    x ∈ fridaysList y m ↔ dow y m x = 5 ∧ 1 ≤ x ∧ x ≤ daysInMonth y m := by
  unfold fridaysList
  simp only [List.mem_filter, List.mem_map, List.mem_range, beq_iff_eq]
  constructor
  · rintro ⟨⟨k, hk, rfl⟩, hd⟩
    exact ⟨hd, by omega, by omega⟩
  · rintro ⟨hd, h1, h2⟩
    exact ⟨⟨x - 1, by omega, by omega⟩, hd⟩

/-- Number of Fridays of the month falling strictly before day `x`. -/
def fridaysBefore (y m x : Nat) : Nat :=
  ((List.range (daysInMonth y m)).map (fun k => k + 1)).countP
    (fun d => dow y m d == 5 && decide (d < x))

/-- C7: `is_third_friday` answers `true` exactly at the third Friday of the
date's month, characterised without list indexing: the day is a Friday of the
month preceded by exactly two Fridays; in particular 2024-03-15 is a third
Friday and 2024-03-08 is not. -/
theorem isThirdFriday_iff :
    (∀ dt : Date,
      is_third_friday dt = some true ↔
        dow dt.year dt.month dt.day = 5 ∧ 1 ≤ dt.day ∧ dt.day ≤ daysInMonth dt.year dt.month ∧
          fridaysBefore dt.year dt.month dt.day = 2)
    ∧ is_third_friday ⟨2024, 3, 15⟩ = some true
    ∧ is_third_friday ⟨2024, 3, 8⟩ = some false := by
  refine ⟨fun dt => ?_, by decide, by decide⟩
  have hstep : is_third_friday dt = some true ↔
      (fridaysList dt.year dt.month)[2]? = some dt.day := by
    unfold is_third_friday
    cases h : (fridaysList dt.year dt.month)[2]? with
    | none => simp
    | some tf =>
      simp only [Option.some.injEq, beq_iff_eq]
      constructor
      · rintro rfl; rfl
      · rintro h2; exact h2.symm
  rw [hstep, getElem?_pairwise_lt _ (fridaysList_pairwise dt.year dt.month),
    mem_fridaysList]
  unfold fridaysList
  rw [List.countP_filter]
  have hc : ((List.range (daysInMonth dt.year dt.month)).map (fun k => k + 1)).countP
        (fun a => decide (a < dt.day) && (dow dt.year dt.month a == 5)) =
      fridaysBefore dt.year dt.month dt.day := by
    unfold fridaysBefore
    apply List.countP_congr
    intro a _
    rw [Bool.and_comm]
  rw [hc]
  tauto

/-! ## Expiration filtering -/

lemma filterValidAux_eq (minD : Date) (l : List Date) :
    filterValidAux minD l =
      some (l.filter (fun e =>
        decide (minD.key ≤ e.key) && decide (is_third_friday e = some true))) := by
  induction l with
  | nil => simp [filterValidAux]
  | cons e rest ih =>
    obtain ⟨b, hb⟩ := isThirdFriday_isSome e
    simp only [filterValidAux, List.filter_cons]
    by_cases hle : minD.key ≤ e.key
    · rw [if_pos hle, hb, ih]
      cases b
      · simp [hb, hle]
      · simp [hb, hle]
    · rw [if_neg hle, ih]
      simp [hle]

lemma filter_valid_expirations_eq (today : Date) (exps : List Date) :
    filter_valid_expirations today exps =
      some (List.insertionSort dateLe (exps.filter (fun e =>
        decide ((addDays today 30).key ≤ e.key) &&
        decide (is_third_friday e = some true)))) := by
  unfold filter_valid_expirations
  rw [filterValidAux_eq]

/-- C6: `filter_valid_expirations` returns exactly the input dates at least 30
days after `today` that are third Fridays, sorted ascending, and never raises;
on the spec's example with today = 2024-02-01 it keeps 2024-03-15 and
2024-04-19 and drops 2024-03-08. -/
theorem filterValidExpirations_correct :
    (∀ (today : Date) (exps : List Date), ∃ r,
      filter_valid_expirations today exps = some r ∧
      r.Perm (exps.filter (fun e =>
        decide ((addDays today 30).key ≤ e.key) &&
        decide (is_third_friday e = some true))) ∧
      r.Sorted dateLe)
    ∧ filter_valid_expirations ⟨2024, 2, 1⟩ [⟨2024, 3, 8⟩, ⟨2024, 3, 15⟩, ⟨2024, 4, 19⟩] =
        some [⟨2024, 3, 15⟩, ⟨2024, 4, 19⟩] := by
  refine ⟨fun today exps => ?_, by decide⟩
  exact ⟨_, filter_valid_expirations_eq today exps,
    List.perm_insertionSort _ _, List.sorted_insertionSort _ _⟩

/-! ## Expiration resolution -/

lemma listMin_spec (xs : List Date) : ∀ x : Date,
    listMin x xs ∈ x :: xs ∧ (listMin x xs).key ≤ x.key ∧
      ∀ b ∈ xs, (listMin x xs).key ≤ b.key := by
  induction xs with
  | nil => intro x; simp [listMin]
  | cons y ys ih =>
    intro x
    have hfold : listMin x (y :: ys) = listMin (if y.key < x.key then y else x) ys := rfl
    by_cases h : y.key < x.key
    · rw [hfold, if_pos h]
      obtain ⟨hmem, hle, hall⟩ := ih y
      refine ⟨List.mem_cons_of_mem x hmem, Nat.le_trans hle (Nat.le_of_lt h), ?_⟩
      intro b hb
      rcases List.mem_cons.mp hb with rfl | h1
      · exact hle
      · exact hall b h1
    · rw [hfold, if_neg h]
      obtain ⟨hmem, hle, hall⟩ := ih x
      refine ⟨?_, hle, ?_⟩
      · rw [List.mem_cons] at hmem ⊢
        rcases hmem with h1 | h1
        · exact Or.inl h1
        · exact Or.inr (List.mem_cons_of_mem y h1)
      · intro b hb
        rcases List.mem_cons.mp hb with rfl | h1
        · exact Nat.le_trans hle (Nat.le_of_not_lt h)
        · exact hall b h1

lemma resolveExpiration_some (valid : List Date) (exp : Date) :
    resolveExpiration valid (some exp) =
      if exp ∈ valid then .ok exp
      else
        match valid.filter (fun d => decide (exp.key ≤ d.key)) with
        | [] => .error (.noFutureDate exp valid)
        | f :: fs => .ok (listMin f fs) := rfl

/-- C3: expiration resolution in `get_options_chain`: with no requested date
the earliest valid expiration is used; a requested date present in the valid
list is used verbatim; a requested date absent from it resolves to the minimum
valid date at least the requested one, and when no such date exists the call
fails with the error naming the available dates; every successful resolution
is a member of the filtered valid list. -/
theorem resolveExpiration_correct :
    (∀ (v : Date) (vs : List Date), (v :: vs).Sorted dateLe →
        resolveExpiration (v :: vs) none = .ok v ∧ ∀ d ∈ v :: vs, v.key ≤ d.key)
    ∧ (∀ (valid : List Date) (req : Date), req ∈ valid →
        resolveExpiration valid (some req) = .ok req)
    ∧ (∀ (valid : List Date) (req : Date), req ∉ valid →
        (∃ d ∈ valid, req.key ≤ d.key) →
        ∃ m, resolveExpiration valid (some req) = .ok m ∧ m ∈ valid ∧
          req.key ≤ m.key ∧ ∀ d ∈ valid, req.key ≤ d.key → m.key ≤ d.key)
    ∧ (∀ (valid : List Date) (req : Date), req ∉ valid →
        (∀ d ∈ valid, ¬ req.key ≤ d.key) →
        resolveExpiration valid (some req) = .error (.noFutureDate req valid))
    ∧ (∀ (valid : List Date) (req : Option Date) (r : Date),
        resolveExpiration valid req = .ok r → r ∈ valid) := by
  refine ⟨?_, ?_, ?_, ?_, ?_⟩
  · intro v vs hs
    rw [List.sorted_cons] at hs
    refine ⟨rfl, ?_⟩
    intro d hd
    rcases List.mem_cons.mp hd with rfl | h1
    · exact Nat.le_refl _
    · exact hs.1 d h1
  · intro valid req hreq
    rw [resolveExpiration_some, if_pos hreq]
  · intro valid req hreq hex
    obtain ⟨d, hd, hdle⟩ := hex
    rw [resolveExpiration_some, if_neg hreq]
    cases hf : valid.filter (fun d => decide (req.key ≤ d.key)) with
    | nil =>
      have hdf : d ∈ valid.filter (fun d => decide (req.key ≤ d.key)) :=
        List.mem_filter.mpr ⟨hd, by simpa using hdle⟩
      rw [hf] at hdf; exact absurd hdf (List.not_mem_nil d)
    | cons f fs =>
      obtain ⟨hmem, hlef, hall⟩ := listMin_spec fs f
      have hmem2 : listMin f fs ∈ valid.filter (fun d => decide (req.key ≤ d.key)) := by
        rw [hf]; exact hmem
      refine ⟨listMin f fs, rfl, (List.mem_filter.mp hmem2).1, ?_, ?_⟩
      · simpa using (List.mem_filter.mp hmem2).2
      · intro d2 hd2 hd2le
        have hd2f : d2 ∈ f :: fs := by
          rw [← hf]
          exact List.mem_filter.mpr ⟨hd2, by simpa using hd2le⟩
        rcases List.mem_cons.mp hd2f with rfl | h1
        · exact hlef
        · exact hall d2 h1
  · intro valid req hreq hnone
    rw [resolveExpiration_some, if_neg hreq]
    have hf : valid.filter (fun d => decide (req.key ≤ d.key)) = [] := by
      rw [List.filter_eq_nil_iff]
      intro d hd
      simpa using hnone d hd
    rw [hf]
  · intro valid req r hres
    cases req with
    | none =>
      cases valid with
      | nil => simp [resolveExpiration] at hres
      | cons v vs =>
        simp only [resolveExpiration, Except.ok.injEq] at hres
        rw [← hres]
        exact List.mem_cons_self v vs
    | some exp =>
      rw [resolveExpiration_some] at hres
      by_cases hexp : exp ∈ valid
      · rw [if_pos hexp] at hres
        injection hres with h
        rw [← h]
        exact hexp
      · rw [if_neg hexp] at hres
        cases hf : valid.filter (fun d => decide (exp.key ≤ d.key)) with
        | nil => rw [hf] at hres; exact absurd hres (by simp)
        | cons f fs =>
          rw [hf] at hres
          injection hres with h
          have hmem := (listMin_spec fs f).1
          rw [← hf, h] at hmem
          exact (List.mem_filter.mp hmem).1

/-- Witness for C3 at the spec's closest-future example: valid expirations
2024-03-15, 2024-04-19, 2024-05-17 with request 2024-04-01 resolve to
2024-04-19, a member of the list. -/
theorem resolveExpiration_correct_witness :
    (⟨2024, 4, 1⟩ : Date) ∉ ([⟨2024, 3, 15⟩, ⟨2024, 4, 19⟩, ⟨2024, 5, 17⟩] : List Date) ∧
    resolveExpiration [⟨2024, 3, 15⟩, ⟨2024, 4, 19⟩, ⟨2024, 5, 17⟩] (some ⟨2024, 4, 1⟩) =
      .ok ⟨2024, 4, 19⟩ ∧
    (⟨2024, 4, 19⟩ : Date) ∈ ([⟨2024, 3, 15⟩, ⟨2024, 4, 19⟩, ⟨2024, 5, 17⟩] : List Date) := by
  refine ⟨by decide, by decide, ?_⟩
  exact resolveExpiration_correct.2.2.2.2 _ (some ⟨2024, 4, 1⟩) _ (by decide)

/-! ## Strike filtering -/

/-- C9: with a lower bound every record whose strike is below it is dropped,
with an upper bound every record whose strike is above it is dropped, the two
filters combine to a single pass-through predicate, the survivors keep their
original relative order (the result is a sublist of the input), and on the
spec's example only the strike-100 record survives.  The filter is applied
separately to the call and put lists by `get_options_chain`. -/
theorem filterStrikes_correct :
    (∀ (Rec : Type) (strike : Rec → Rat) (minS maxS : Option Rat) (recs : List Rec),
      filterStrikes strike minS maxS recs =
        recs.filter (fun c =>
          (match minS with | some m => decide (m ≤ strike c) | none => true) &&
          (match maxS with | some mx => decide (strike c ≤ mx) | none => true)) ∧
      (filterStrikes strike minS maxS recs).Sublist recs)
    ∧ filterStrikes (fun r : Rat × String => r.1) (some 95) (some 105)
        [(90, "c90"), (100, "c100"), (110, "c110")] = [(100, "c100")] := by
  refine ⟨fun Rec strike minS maxS recs => ?_, by decide⟩
  have heq : filterStrikes strike minS maxS recs =
      recs.filter (fun c =>
        (match minS with | some m => decide (m ≤ strike c) | none => true) &&
        (match maxS with | some mx => decide (strike c ≤ mx) | none => true)) := by
    cases minS with
    | none =>
      cases maxS with
      | none => simp [filterStrikes]
      | some mx => simp [filterStrikes]
    | some m =>
      cases maxS with
      | none => simp [filterStrikes]
      | some mx =>
        simp only [filterStrikes, List.filter_filter]
        apply List.filter_congr
        intro a _
        rw [Bool.and_comm]
  exact ⟨heq, heq ▸ List.filter_sublist recs⟩

/-! ## Response cache -/

lemma cachedCall_eq_some {V E : Type} (ttl : Int) (store : String → Option (V × Int))
    (now : Int) (key : String) (compute : Unit → Except E V) (v : V) (ts : Int)
    (hk : store key = some (v, ts)) :
    cachedCall ttl store now key compute =
      if now - ts < ttl then (.ok v, store, false)
      else
        match compute () with
        | .ok v2 => (.ok v2, fun k => if k = key then some (v2, now) else store k, true)
        | .error e => (.error e, store, true) := by
  unfold cachedCall
  rw [hk]

lemma cachedCall_eq_none {V E : Type} (ttl : Int) (store : String → Option (V × Int))
    (now : Int) (key : String) (compute : Unit → Except E V)
    (hk : store key = none) :
    cachedCall ttl store now key compute =
      match compute () with
      | .ok v2 => (.ok v2, fun k => if k = key then some (v2, now) else store k, true)
      | .error e => (.error e, store, true) := by
  unfold cachedCall
  rw [hk]

/-- C5: time-to-live semantics of the cached wrapper: a stored entry younger
than the time-to-live is returned without invoking the compute function; a
missing or stale entry causes an invocation whose successful result is stored
under the key with the current timestamp; two calls with the same signature
within the window invoke the compute function exactly once while a later call
past the window invokes it again; and a cached value is only ever returned
from an entry strictly younger than the time-to-live. -/
theorem cachedCall_ttl_semantics :
    ∀ (V E : Type) (ttl : Int) (key : String) (compute : Unit → Except E V),
      (∀ (store : String → Option (V × Int)) (now : Int) (v : V) (ts : Int),
        store key = some (v, ts) → now - ts < ttl →
        cachedCall ttl store now key compute = (.ok v, store, false))
      ∧ (∀ (store : String → Option (V × Int)) (now : Int),
          store key = none → (cachedCall ttl store now key compute).2.2 = true)
      ∧ (∀ (store : String → Option (V × Int)) (now : Int) (v : V) (ts : Int),
          store key = some (v, ts) → ttl ≤ now - ts →
          (cachedCall ttl store now key compute).2.2 = true)
      ∧ (∀ (store : String → Option (V × Int)) (now : Int) (v : V),
          store key = none → compute () = .ok v →
          (cachedCall ttl store now key compute).1 = .ok v ∧
          (cachedCall ttl store now key compute).2.1 key = some (v, now) ∧
          ∀ k, k ≠ key → (cachedCall ttl store now key compute).2.1 k = store k)
      ∧ (∀ (store : String → Option (V × Int)) (now : Int) (v : V) (ts : Int) (v2 : V),
          store key = some (v, ts) → ttl ≤ now - ts → compute () = .ok v2 →
          (cachedCall ttl store now key compute).1 = .ok v2 ∧
          (cachedCall ttl store now key compute).2.1 key = some (v2, now))
      ∧ (∀ (store : String → Option (V × Int)) (t0 t1 : Int) (v : V),
          store key = none → compute () = .ok v → t1 - t0 < ttl →
          (cachedCall ttl store t0 key compute).2.2 = true ∧
          (cachedCall ttl (cachedCall ttl store t0 key compute).2.1 t1 key compute).2.2
            = false ∧
          (cachedCall ttl (cachedCall ttl store t0 key compute).2.1 t1 key compute).1
            = .ok v)
      ∧ (∀ (store : String → Option (V × Int)) (t0 t2 : Int) (v : V),
          store key = none → compute () = .ok v → ttl ≤ t2 - t0 →
          (cachedCall ttl (cachedCall ttl store t0 key compute).2.1 t2 key compute).2.2
            = true)
      ∧ (∀ (store : String → Option (V × Int)) (now : Int),
          (cachedCall ttl store now key compute).2.2 = false →
          ∃ v ts, store key = some (v, ts) ∧ now - ts < ttl ∧
            (cachedCall ttl store now key compute).1 = .ok v) := by
  intro V E ttl key compute
  have hmiss : ∀ (store : String → Option (V × Int)) (now : Int) (v : V),
      store key = none → compute () = .ok v →
      cachedCall ttl store now key compute =
        (.ok v, fun k => if k = key then some (v, now) else store k, true) := by
    intro store now v hk hc
    rw [cachedCall_eq_none ttl store now key compute hk, hc]
  have hstep : ∀ (store : String → Option (V × Int)) (now : Int) (v : V),
      (fun k => if k = key then some (v, now) else store k) key = some (v, now) := by
    intro store now v
    simp
  refine ⟨?_, ?_, ?_, ?_, ?_, ?_, ?_, ?_⟩
  · intro store now v ts hk hfresh
    rw [cachedCall_eq_some ttl store now key compute v ts hk, if_pos hfresh]
  · intro store now hk
    rw [cachedCall_eq_none ttl store now key compute hk]
    cases hc : compute () <;> simp
  · intro store now v ts hk hstale
    rw [cachedCall_eq_some ttl store now key compute v ts hk, if_neg (by omega)]
    cases hc : compute () <;> simp
  · intro store now v hk hc
    rw [hmiss store now v hk hc]
    exact ⟨rfl, by simp, fun k hkk => by simp [hkk]⟩
  · intro store now v ts v2 hk hstale hc
    rw [cachedCall_eq_some ttl store now key compute v ts hk, if_neg (by omega), hc]
    exact ⟨rfl, by simp⟩
  · intro store t0 t1 v hk hc hwin
    rw [hmiss store t0 v hk hc]
    refine ⟨rfl, ?_, ?_⟩ <;>
      rw [cachedCall_eq_some ttl _ t1 key compute v t0 (hstep store t0 v),
        if_pos (by omega)]
  · intro store t0 t2 v hk hc hpast
    rw [hmiss store t0 v hk hc,
      cachedCall_eq_some ttl _ t2 key compute v t0 (hstep store t0 v),
      if_neg (by omega)]
    cases hc2 : compute () <;> simp
  · intro store now hninv
    cases hk : store key with
    | none =>
      rw [cachedCall_eq_none ttl store now key compute hk] at hninv
      cases hc : compute () <;> rw [hc] at hninv <;> simp at hninv
    | some vts =>
      obtain ⟨v, ts⟩ := vts
      rw [cachedCall_eq_some ttl store now key compute v ts hk] at hninv
      by_cases hfresh : now - ts < ttl
      · rw [cachedCall_eq_some ttl store now key compute v ts hk, if_pos hfresh]
        exact ⟨v, ts, rfl, hfresh, rfl⟩
      · rw [if_neg hfresh] at hninv
        cases hc : compute () <;> rw [hc] at hninv <;> simp at hninv

/-- Witness for C5: with time-to-live 10, key `k` and a compute function
returning 42, the first call at time 0 invokes compute, the second call at
time 5 does not and returns 42. -/
theorem cachedCall_ttl_semantics_witness :
    ((fun _ => none : String → Option (Nat × Int)) "k" = none) ∧
    (cachedCall 10 (fun _ => none) 0 "k"
      (fun _ => (Except.ok 42 : Except String Nat))).2.2 = true ∧
    (cachedCall 10
      (cachedCall 10 (fun _ => none) 0 "k"
        (fun _ => (Except.ok 42 : Except String Nat))).2.1 5 "k"
      (fun _ => (Except.ok 42 : Except String Nat))).2.2 = false ∧
    (cachedCall 10
      (cachedCall 10 (fun _ => none) 0 "k"
        (fun _ => (Except.ok 42 : Except String Nat))).2.1 5 "k"
      (fun _ => (Except.ok 42 : Except String Nat))).1 = .ok 42 := by
  have h := (cachedCall_ttl_semantics Nat String 10 "k"
      (fun _ => .ok 42)).2.2.2.2.2.1 (fun _ => none) 0 5 42 rfl rfl (by norm_num)
  exact ⟨rfl, h.1, h.2.1, h.2.2⟩

/-- C4 (amended): a computation that raises leaves the cache unchanged — the
store after the call is the store before it, the exception propagates when the
compute function was invoked, and a subsequent call with the same signature
invokes its compute function again.  A fetch failure surfaced as a normal
return value (the endpoint's no-data 404 response) is, however, cached; see
the counterexample. -/
theorem cachedCall_error_not_cached :
    (∀ (V E : Type) (ttl : Int) (store : String → Option (V × Int)) (now : Int)
        (key : String) (e : E),
        (cachedCall ttl store now key (fun _ => .error e)).2.1 = store)
    ∧ (∀ (V E : Type) (ttl : Int) (store : String → Option (V × Int)) (now : Int)
        (key : String) (e : E),
        store key = none →
        (cachedCall ttl store now key (fun _ => .error e)).1 = .error e ∧
        (cachedCall ttl store now key (fun _ => .error e)).2.2 = true)
    ∧ (∀ (V E : Type) (ttl : Int) (store : String → Option (V × Int))
        (now now2 : Int) (key : String) (e : E) (compute2 : Unit → Except E V),
        store key = none →
        (cachedCall ttl
          ((cachedCall ttl store now key (fun _ => .error e)).2.1)
          now2 key compute2).2.2 = true) := by
  have hfail : ∀ (V E : Type) (ttl : Int) (store : String → Option (V × Int))
      (now : Int) (key : String) (e : E),
      store key = none →
      cachedCall ttl store now key (fun _ => (.error e : Except E V)) =
        (.error e, store, true) := by
    intro V E ttl store now key e hk
    rw [cachedCall_eq_none ttl store now key _ hk]
  refine ⟨?_, ?_, ?_⟩
  · intro V E ttl store now key e
    cases hk : store key with
    | none => rw [hfail V E ttl store now key e hk]
    | some vts =>
      obtain ⟨v, ts⟩ := vts
      rw [cachedCall_eq_some ttl store now key _ v ts hk]
      by_cases hfresh : now - ts < ttl
      · rw [if_pos hfresh]
      · rw [if_neg hfresh]
  · intro V E ttl store now key e hk
    rw [hfail V E ttl store now key e hk]
    exact ⟨rfl, rfl⟩
  · intro V E ttl store now now2 key e compute2 hk
    rw [hfail V E ttl store now key e hk]
    rw [cachedCall_eq_none ttl store now2 key compute2 hk]
    cases hc : compute2 () <;> simp

/-- Witness for C4: a failing compute at a fresh key leaves the empty store
empty, propagates the error, and the next call invokes compute again. -/
theorem cachedCall_error_not_cached_witness :
    ((fun _ => none : String → Option (Nat × Int)) "k2" = none) ∧
    (cachedCall 10 (fun _ => none) 0 "k2"
      (fun _ => (Except.error "boom" : Except String Nat))).2.1 = (fun _ => none) ∧
    (cachedCall 10 (fun _ => none) 0 "k2"
      (fun _ => (Except.error "boom" : Except String Nat))).1 = .error "boom" ∧
    (cachedCall 10
      ((cachedCall 10 (fun _ => none) 0 "k2"
        (fun _ => (Except.error "boom" : Except String Nat))).2.1)
      7 "k2" (fun _ => (Except.error "boom" : Except String Nat))).2.2 = true := by
  refine ⟨rfl, ?_, ?_, ?_⟩
  · exact cachedCall_error_not_cached.1 Nat String 10 (fun _ => none) 0 "k2" "boom"
  · exact (cachedCall_error_not_cached.2.1 Nat String 10 (fun _ => none) 0 "k2" "boom" rfl).1
  · exact cachedCall_error_not_cached.2.2 Nat String 10 (fun _ => none) 0 7 "k2" "boom" _ rfl

/-- C4 counterexample: at the public endpoint, an upstream whose every fetch
attempt raises makes `get_options_chain` return `None`, the view converts that
into a 404 response value, and the cache wrapper stores that failure response
under the request's signature with the current timestamp; a repeat call within
the time-to-live window returns the cached failure without recomputing. -/
theorem endpoint_fetchFailure_cached_cex :
    (cachedCall 300 (fun _ => none) 0 (cache_key "get_options" [] [("symbol", "AAPL")])
        (fun _ => get_options_fn upAllFail (fun _ => 0) ⟨2024, 2, 1⟩ "AAPL" none none none)).2.1
      (cache_key "get_options" [] [("symbol", "AAPL")]) =
      some (Resp.notFound "No options data available for AAPL", 0) ∧
    (cachedCall 300
      (cachedCall 300 (fun _ => none) 0 (cache_key "get_options" [] [("symbol", "AAPL")])
        (fun _ => get_options_fn upAllFail (fun _ => 0) ⟨2024, 2, 1⟩ "AAPL" none none none)).2.1
      60 (cache_key "get_options" [] [("symbol", "AAPL")])
      (fun _ => get_options_fn upAllFail (fun _ => 0) ⟨2024, 2, 1⟩ "AAPL" none none none)).2.2
      = false ∧
    (cachedCall 300
      (cachedCall 300 (fun _ => none) 0 (cache_key "get_options" [] [("symbol", "AAPL")])
        (fun _ => get_options_fn upAllFail (fun _ => 0) ⟨2024, 2, 1⟩ "AAPL" none none none)).2.1
      60 (cache_key "get_options" [] [("symbol", "AAPL")])
      (fun _ => get_options_fn upAllFail (fun _ => 0) ⟨2024, 2, 1⟩ "AAPL" none none none)).1
      = .ok (Resp.notFound "No options data available for AAPL") := by
  refine ⟨by decide, by decide, by decide⟩

/-! ## Retry exhaustion -/

lemma expRetry_allFail (fetch : Nat → Except String (List Date))
    (h : ∀ a, a < 3 → ∃ e, fetch a = .error e) :
    expRetry fetch 3 0 none = ([0, 1, 2], none) := by
  obtain ⟨e0, h0⟩ := h 0 (by omega)
  obtain ⟨e1, h1⟩ := h 1 (by omega)
  obtain ⟨e2, h2⟩ := h 2 (by omega)
  simp [expRetry, h0, h1, h2]

lemma chainRetry_allFail {χ : Type} (fetch : Nat → Except String (Option χ))
    (h : ∀ a, a < 3 → ∃ e, fetch a = .error e) :
    chainRetry fetch 3 0 none = ([0, 1, 2], none) := by
  obtain ⟨e0, h0⟩ := h 0 (by omega)
  obtain ⟨e1, h1⟩ := h 1 (by omega)
  obtain ⟨e2, h2⟩ := h 2 (by omega)
  simp [chainRetry, h0, h1, h2]

lemma getOptionsChain_expFail {Rec : Type} (up : Upstream Rec) (strike : Rec → Rat)
    (symbol : String) (expiration : Option Date) (minS maxS : Option Rat) (today : Date)
    (h : ∀ a, a < 3 → ∃ e, up.options a = .error e) :
    get_options_chain up strike symbol expiration minS maxS today = .ok none := by
  unfold get_options_chain
  rw [expRetry_allFail up.options h]

/-- C1 (amended): a retry loop whose upstream raises on every attempt makes
exactly the three attempts 0, 1 and 2 and then takes the `return None` branch,
so `get_options_chain` yields a non-error `None` result instead of raising;
this holds for the expiration-list loop and for the option-chain loop.  Only
an upstream that keeps returning an empty expiration list without raising
leads to a raised error (`No options available`) after the loop. -/
theorem getOptionsChain_retry_exhaustion :
    (∀ (fetch : Nat → Except String (List Date)),
        (∀ a, a < 3 → ∃ e, fetch a = .error e) →
        expRetry fetch 3 0 none = ([0, 1, 2], none))
    ∧ (∀ (χ : Type) (fetch : Nat → Except String (Option χ)),
        (∀ a, a < 3 → ∃ e, fetch a = .error e) →
        chainRetry fetch 3 0 none = ([0, 1, 2], none))
    ∧ (∀ (Rec : Type) (up : Upstream Rec) (strike : Rec → Rat) (symbol : String)
        (expiration : Option Date) (minS maxS : Option Rat) (today : Date),
        (∀ a, a < 3 → ∃ e, up.options a = .error e) →
        get_options_chain up strike symbol expiration minS maxS today = .ok none)
    ∧ (∀ (Rec : Type) (up : Upstream Rec) (strike : Rec → Rat) (symbol : String)
        (expiration : Option Date) (minS maxS : Option Rat) (today : Date)
        (exps valid : List Date) (expDate : Date),
        up.options 0 = .ok exps → exps.isEmpty = false →
        filter_valid_expirations today exps = some valid → valid.isEmpty = false →
        resolveExpiration valid expiration = .ok expDate →
        (∀ a, a < 3 → ∃ e, up.option_chain expDate a = .error e) →
        get_options_chain up strike symbol expiration minS maxS today = .ok none)
    ∧ (∀ (fetch : Nat → Except String (List Date)),
        (∀ a, a < 3 → fetch a = .ok []) →
        expRetry fetch 3 0 none = ([0, 1, 2], some (some []))) := by
  refine ⟨expRetry_allFail, fun χ => chainRetry_allFail,
    fun Rec up => getOptionsChain_expFail up, ?_, ?_⟩
  · intro Rec up strike symbol expiration minS maxS today exps valid expDate
      hopt hne hfilter hvne hres hchain
    unfold get_options_chain
    have hexp : expRetry up.options 3 0 none = ([0], some (some exps)) := by
      simp [expRetry, hopt, hne]
    rw [hexp]
    simp only [Option.getD_some, hne, Bool.false_eq_true, if_false, hfilter, hvne, hres]
    rw [chainRetry_allFail (up.option_chain expDate) hchain]
  · intro fetch h
    simp [expRetry, h 0 (by omega), h 1 (by omega), h 2 (by omega)]

/-- C1 counterexample: with an upstream that raises on every attempt, the
fetch returns the non-error value `None` (mapped by the view to a 404
response), rather than raising an error. -/
theorem getOptionsChain_upstreamRaise_cex :
    get_options_chain upAllFail (fun _ => 0) "AAPL" none none none ⟨2024, 2, 1⟩ =
      .ok none ∧
    (get_options_chain upAllFail (fun _ => 0) "AAPL" none none none ⟨2024, 2, 1⟩).isOk
      = true := by
  exact ⟨by decide, by decide⟩

/-- Witness for C1 (amended) at a concrete always-raising upstream. -/
theorem getOptionsChain_retry_exhaustion_witness :
    expRetry (fun _ => .error "ConnectionError") 3 0 none = ([0, 1, 2], none) ∧
    get_options_chain upAllFail (fun _ => (0 : Rat)) "MSFT" none none none ⟨2024, 2, 1⟩ =
      .ok none := by
  constructor
  · exact getOptionsChain_retry_exhaustion.1 _ (fun a _ => ⟨"ConnectionError", rfl⟩)
  · exact getOptionsChain_retry_exhaustion.2.2.1 Unit upAllFail _ "MSFT" none none none
      ⟨2024, 2, 1⟩ (fun a _ => ⟨"ConnectionError", rfl⟩)

/-! ## Symbol validation -/

/-- C2 (amended): when the upstream returns empty info without error on every
attempt, `validate_symbol` retries up to the 3-attempt limit and then falls
through to `return symbol.upper()`, returning the symbol as verified instead
of raising `UnverifiableSymbol`. -/
theorem validateSymbol_emptyInfo_returnsSymbol :
    ∀ (info : Nat → Except String Bool) (s : String),
      reMatchSymbol s = true → (∀ a, a < 3 → info a = .ok false) →
      validate_symbol info s = .ok (pyUpper s) := by
  intro info s hfmt hinfo
  unfold validate_symbol
  rw [if_pos hfmt]
  show validateSymbolLoop info s 3 0 = .ok (pyUpper s)
  unfold validateSymbolLoop
  rw [hinfo 0 (by omega)]
  unfold validateSymbolLoop
  rw [hinfo 1 (by omega)]
  unfold validateSymbolLoop
  rw [hinfo 2 (by omega)]
  unfold validateSymbolLoop
  rfl

/-- Witness for C2 (amended) at the symbol AAPL with persistently-empty info. -/
theorem validateSymbol_emptyInfo_returnsSymbol_witness :
    reMatchSymbol "AAPL" = true ∧
    validate_symbol (fun _ => .ok false) "AAPL" = .ok (pyUpper "AAPL") := by
  exact ⟨by decide,
    validateSymbol_emptyInfo_returnsSymbol (fun _ => .ok false) "AAPL" (by decide)
      (fun a _ => rfl)⟩

/-- C2 counterexample: a validly-formatted symbol whose upstream info is empty
(falsy) without error on all three attempts is returned as verified, not
rejected with `UnverifiableSymbol`. -/
theorem validateSymbol_emptyInfo_cex :
    validate_symbol (fun _ => .ok false) "GOOG" = .ok "GOOG" ∧
    validate_symbol (fun _ => .ok false) "GOOG" ≠ .error (.unverifiable "GOOG") := by
  exact ⟨by decide, by decide⟩

lemma validateSymbolLoop_ne_invalidFormat (info : Nat → Except String Bool)
    (s : String) : ∀ (r a : Nat), validateSymbolLoop info s r a ≠ .error .invalidFormat := by
  intro r
  induction r with
  | zero => intro a h; simp [validateSymbolLoop] at h
  | succ r ih =>
    intro a
    unfold validateSymbolLoop
    cases hi : info a with
    | ok b =>
      cases b
      · exact ih (a + 1)
      · intro h
        exact Except.noConfusion h
    | error e =>
      by_cases hr : r = 0
      · rw [if_pos hr]
        intro h
        injection h with h2
        exact SymbolErr.noConfusion h2
      · rw [if_neg hr]
        exact ih (a + 1)

/-- C8 (amended): the format check of `validate_symbol` accepts exactly the
strings that are 1 to 5 uppercase ASCII letters optionally followed by one
trailing newline (Python's `$` also matches just before a final newline);
every other string is rejected with `InvalidFormat` without consulting the
upstream, and an accepted string is never rejected with `InvalidFormat`. -/
theorem symbolFormat_characterization :
    (∀ (s : String) (info : Nat → Except String Bool),
        reMatchSymbol s = false → validate_symbol info s = .error .invalidFormat)
    ∧ (∀ (s : String) (info : Nat → Except String Bool),
        reMatchSymbol s = true → validate_symbol info s ≠ .error .invalidFormat)
    ∧ (∀ s : String, reMatchSymbol s = true ↔
        ∃ core : List Char,
          (1 ≤ core.length ∧ core.length ≤ 5 ∧ ∀ c ∈ core, 'A' ≤ c ∧ c ≤ 'Z') ∧
          (s.data = core ∨ s.data = core ++ ['\n'])) := by
  have hupper : ∀ cs : List Char, upper1to5 cs = true ↔
      (1 ≤ cs.length ∧ cs.length ≤ 5 ∧ ∀ c ∈ cs, 'A' ≤ c ∧ c ≤ 'Z') := by
    intro cs
    simp [upper1to5, List.all_eq_true, isUpperAZ, and_assoc]
  refine ⟨?_, ?_, ?_⟩
  · intro s info hfmt
    unfold validate_symbol
    rw [hfmt]
    rfl
  · intro s info hfmt
    unfold validate_symbol
    rw [hfmt]
    exact validateSymbolLoop_ne_invalidFormat info s 3 0
  · intro s
    unfold reMatchSymbol
    rw [Bool.or_eq_true, Bool.and_eq_true]
    constructor
    · rintro (hall | ⟨hlast, hcore⟩)
      · exact ⟨s.data, (hupper s.data).mp hall, Or.inl rfl⟩
      · rcases List.eq_nil_or_concat s.data with hnil | ⟨L, b, hLb⟩
        · rw [hnil] at hlast
          exact absurd hlast (by decide)
        · rw [List.concat_eq_append] at hLb
          have hb : b = '\n' := by
            rw [hLb, List.getLast?_concat] at hlast
            simpa using hlast
          rw [hLb, List.dropLast_concat] at hcore
          exact ⟨L, (hupper L).mp hcore, Or.inr (by rw [hLb, hb])⟩
    · rintro ⟨core, hcore, hs | hs⟩
      · exact Or.inl (by rw [hs]; exact (hupper core).mpr hcore)
      · refine Or.inr ⟨?_, ?_⟩
        · rw [hs, List.getLast?_concat]
          rfl
        · rw [hs, List.dropLast_concat]
          exact (hupper core).mpr hcore

/-- Witness for C8 (amended): MSFT passes the format check and is not rejected
as invalid. -/
theorem symbolFormat_characterization_witness :
    reMatchSymbol "MSFT" = true ∧
    validate_symbol (fun _ => .ok true) "MSFT" ≠ .error .invalidFormat := by
  exact ⟨by decide, symbolFormat_characterization.2.1 "MSFT" _ (by decide)⟩

/-- C8 counterexample: the string "ABC\n" is not 1 to 5 uppercase letters (the
claim's predicate rejects it), yet the code's format check accepts it — Python
`re.match(r'^[A-Z]{1,5}$', ...)` matches just before the trailing newline —
and validation proceeds to upstream, returning the string as verified. -/
theorem symbolFormat_trailingNewline_cex :
    claimedSymbolFormat "ABC\n" = false ∧
    reMatchSymbol "ABC\n" = true ∧
    validate_symbol (fun _ => .ok true) "ABC\n" = .ok "ABC\n" := by
  exact ⟨by decide, by decide, by decide⟩

end OptionsProxy
